import Mathlib

/-!
BradSiteBlocker: a verification development

A shallow embedding of the extension's background script (`background.js`),
its options page (`options.js`) and its block page (`block.js`).

Modelling conventions.

* A JavaScript string is the list of its characters (`JSString`).  String
  literals of the source are written `"...".toList`.
* `String.prototype.toLowerCase` is a builtin of the host, not code of the
  repository.  Every definition that calls it takes it as the explicit
  argument `toLowerCase`, so the general theorems hold for whatever
  lower-casing the host implements.  `asciiLower` is the instance used to
  evaluate the definitions on concrete ASCII inputs, where it coincides with
  the builtin.
* A JavaScript number that reaches a comparison is a finite double, modelled
  by its exact rational value; `undefined` compares false.  The comparison of
  two doubles is exact, so no rounding is involved.
* Callback chains of the chrome API are flattened into the list of effects
  they perform, in order.
-/

namespace BradSiteBlocker

/-- A JavaScript string, as the list of its characters. -/
abbrev JSString := List Char

/-! ## Host builtins -/

/-- Lower-casing of one ASCII letter; other characters are unchanged. -/
def asciiLowerChar (c : Char) : Char :=
  if 65 ≤ c.toNat ∧ c.toNat ≤ 90 then Char.ofNat (c.toNat + 32) else c

/-- ASCII instance of `toLowerCase`, used to evaluate concrete inputs. -/
def asciiLower (s : JSString) : JSString := s.map asciiLowerChar

/-- `String.prototype.startsWith`. -/
def startsWith (s t : JSString) : Bool := t.isPrefixOf s

/-- `String.prototype.includes`: `t` occurs in `s` as a contiguous block. -/
def includes : JSString → JSString → Bool
  | [], t => t.isEmpty
  | c :: s, t => t.isPrefixOf (c :: s) || includes s t

/-- White space and line terminators removed by `String.prototype.trim`. -/
def isWhiteSpace (c : Char) : Bool :=
  let n := c.toNat
  n == 9 || n == 10 || n == 11 || n == 12 || n == 13 || n == 32 || n == 160 ||
  n == 5760 || (8192 ≤ n && n ≤ 8202) || n == 8232 || n == 8233 || n == 8239 ||
  n == 8287 || n == 12288 || n == 65279

/-- `String.prototype.trim`. -/
def trim (s : JSString) : JSString :=
  ((s.dropWhile isWhiteSpace).reverse.dropWhile isWhiteSpace).reverse

/-- `Array.prototype.includes` on an array of strings. -/
def arrayIncludes (list : List JSString) (x : JSString) : Bool := list.contains x

/-- `Set.prototype.add`: insertion order is kept, a present value is not added again. -/
def setAdd (s : List JSString) (x : JSString) : List JSString :=
  if arrayIncludes s x then s else s ++ [x]

/-- `Array.from(new Set(xs))`: the values of `xs` in order of first occurrence. -/
def arrayFromSet (xs : List JSString) : List JSString := xs.foldl setAdd []

/-! ## Configuration of `background.js` -/

/-- Permanent safe sites. -/
def DEFAULT_SAFE : List JSString :=
  ["canvaslms.com".toList, "agasd.org".toList, "google.com/classroom".toList,
   "agasd.instructure.com".toList, "instructure.com".toList, "clever.com".toList,
   "readworks.com".toList, "google.com".toList, "youtube.com".toList,
   "docs.google.com".toList, "mail.google.com".toList, "wikipedia.org".toList,
   "khanacademy.org".toList, "github.com".toList]

/-- Labels that block when the classifier is confident enough. -/
def HIGH_RISK_LABELS : List JSString :=
  ["adult".toList, "unsafe".toList, "gaming".toList, "music".toList,
   "social media".toList, "gambling".toList, "proxy".toList, "cheating".toList]

/-- The double written `0.6` in the source, as its exact rational value. -/
def BLOCK_THRESHOLD : ℚ := 5404319552844595 / 9007199254740992

/-- The double written `0.5999`, as its exact rational value. -/
def double_0_5999 : ℚ := 5403418832919121 / 9007199254740992

/-- The domains merged into the blocklist by the `onInstalled` listener. -/
def mustBlockDomains : List JSString :=
  ["minecraft.net".toList, "roblox.com".toList, "discord.com".toList,
   "steamcommunity.com".toList, "epicgames.com".toList, "fortnite.com".toList,
   "onlyfans.com".toList, "pornhub.com".toList, "xvideos.com".toList,
   "thepiratebay.org".toList, "chatgpt.com".toList, "facebook.com".toList,
   "blender.org".toList, "tiktok.com".toList, "whatsapp.com".toList,
   "irs.gov".toList, "bbc.com".toList, "icloud.com".toList, "dev.to".toList,
   "apple.com".toList, "instagram.com".toList, "fbi.gov".toList,
   "walmart.com".toList, "amazon.com".toList, "instacart.com".toList,
   "aldi.us".toList, "turbotax.intuit.com".toList, "intuit.com".toList,
   "croxy.org".toList, "tylerhalltech.com".toList,
   "tylerhalltech.com/noguardian2/".toList]

/-! ## Storage -/

/-- The two keys of `chrome.storage.sync`; `none` is a key that was never written. -/
structure Storage where
  blocklist : Option (List JSString)
  whitelist : Option (List JSString)
deriving DecidableEq, Repr

/-- The `onInstalled` listener: `Array.from(new Set([...existing, ...mustBlockDomains]))`
with `existing = data.blocklist || []`. -/
def installMerge (stored : Option (List JSString)) : List JSString :=
  arrayFromSet (stored.getD [] ++ mustBlockDomains)

/-- The `onInstalled` listener as a storage update. -/
def onInstalled (st : Storage) : Storage :=
  { st with blocklist := some (installMerge st.blocklist) }

/-! ## Matcher -/

/-- Function `matchList` of `background.js`. -/
def matchList (toLowerCase : JSString → JSString) (url : JSString)
    (list : List JSString) : Bool :=
  let lowerUrl := toLowerCase url
  list.any (fun site => includes lowerUrl (toLowerCase site))

/-! ## Classifier client -/

/-- The parsed JSON body of the classifier's response, as far as `classifySite`
looks at it.  `error` says whether `result.error` is truthy; `labels = none` is a
`labels` field that is absent or falsy; `scores = none` is a `scores` field that
cannot be indexed (absent or null). -/
structure HFResult where
  error : Bool
  labels : Option (List JSString)
  scores : Option (List ℚ)
deriving DecidableEq

/-- What `await fetch(...)` followed by `await response.json()` does: either of
them throws, or a JSON body is obtained. -/
inductive FetchOutcome where
  | threw
  | json (result : HFResult)
deriving DecidableEq

/-- The object returned by `classifySite`; `score = none` is `undefined`. -/
structure Classification where
  label : JSString
  score : Option ℚ
deriving DecidableEq

/-- The value `{ label: "educational", score: 0.0 }`. -/
def safeDefault : Classification := { label := "educational".toList, score := some 0 }

/-- The text sent to the classifier: the template `title || "Unknown Title"`,
then `" - "`, then the url. -/
def classifierInput (url title : JSString) : JSString :=
  (if title.isEmpty then "Unknown Title".toList else title) ++ " - ".toList ++ url

/-- Function `classifySite` of `background.js`, given the outcome of its request. -/
def classifySite (outcome : FetchOutcome) : Classification :=
  match outcome with
  | .threw => safeDefault
  | .json result =>
    if result.error then safeDefault
    else
      match result.labels with
      | none => safeDefault
      | some [] => safeDefault
      | some (label :: _) =>
        match result.scores with
        | none => safeDefault
        | some scores => { label := label, score := scores.head? }

/-- The comparison `score >= BLOCK_THRESHOLD`; `undefined` compares false. -/
def scoreAtLeast (score : Option ℚ) (threshold : ℚ) : Bool :=
  match score with
  | none => false
  | some q => decide (threshold ≤ q)

/-! ## Decision engine -/

/-- The `details` object of a navigation event. -/
structure Details where
  frameId : Int
  tabId : Nat
  url : JSString
deriving DecidableEq

/-- The reason carried by the block page: a fixed text, or the classifier
template `AI classified as <label> (<score * 100>%)` kept as its two arguments. -/
inductive Reason where
  | text (s : JSString)
  | aiClassified (label : JSString) (score : Option ℚ)
deriving DecidableEq

/-- The calls the navigation listener makes on its collaborators.  A `tabsUpdate`
is the redirect to `block.html`; it holds the values of the query parameters
`site` and `reason` before they are URL-encoded. -/
inductive Effect where
  | tabsGet (tabId : Nat)
  | storageGet (keys : List JSString)
  | fetch (input : JSString)
  | tabsUpdate (tabId : Nat) (site : JSString) (reason : Reason)
deriving DecidableEq

/-- The effect is a redirect of the tab to the block page. -/
def Effect.isRedirect : Effect → Bool
  | .tabsUpdate _ _ _ => true
  | _ => false

/-- The effect is a request to the classifier. -/
def Effect.isFetch : Effect → Bool
  | .fetch _ => true
  | _ => false

/-- The effect is a read of the stored lists. -/
def Effect.isStorageGet : Effect → Bool
  | .storageGet _ => true
  | _ => false

/-- The `chrome.webNavigation.onBeforeNavigate` listener.  `fetch` answers the
classifier request for a given input text, `st` is the storage at the time of
the read and `title` is `tab.title || ""` of the tab handed to the callback of
`chrome.tabs.get`.  The result is the list of effects. -/
def onBeforeNavigate (toLowerCase : JSString → JSString) (fetch : JSString → FetchOutcome)
    (st : Storage) (title : JSString) (details : Details) : List Effect :=
  if details.frameId ≠ 0 || !(startsWith details.url "http".toList) then []
  else
    let url := details.url
    let blocklist := st.blocklist.getD []
    let whitelist := st.whitelist.getD []
    [.tabsGet details.tabId, .storageGet ["blocklist".toList, "whitelist".toList]] ++
      if matchList toLowerCase url (DEFAULT_SAFE ++ whitelist) then []
      else if matchList toLowerCase url blocklist then
        [.tabsUpdate details.tabId url (.text "In the required blocklist".toList)]
      else
        let input := classifierInput url title
        let r := classifySite (fetch input)
        .fetch input ::
          if arrayIncludes HIGH_RISK_LABELS r.label && scoreAtLeast r.score BLOCK_THRESHOLD then
            [.tabsUpdate details.tabId url (.aiClassified r.label r.score)]
          else []

/-- The verdict of a navigation: the reason of the redirect issued, if any. -/
def blockReason : List Effect → Option Reason
  | [] => none
  | .tabsUpdate _ _ reason :: _ => some reason
  | _ :: rest => blockReason rest

/-- The part of a url before its first colon. -/
def scheme (url : JSString) : JSString := url.takeWhile (fun c => c != ':')

/-! ## List editor -/

/-- The statement pair `if (!list.includes(site)) list.push(site);`. -/
def pushIfAbsent (list : List JSString) (site : JSString) : List JSString :=
  if arrayIncludes list site then list else list ++ [site]

/-- The handler `siteBtn.onclick` / `whiteBtn.onclick` of `options.js` on the list
read from storage: `none` when the handler returns before touching storage,
otherwise the list it writes. -/
def optionsAdd (stored : Option (List JSString)) (inputValue : JSString) :
    Option (List JSString) :=
  let site := trim inputValue
  if site.isEmpty then none
  else some (pushIfAbsent (stored.getD []) site)

/-- The whitelist branch of the `onMessage` listener on the stored whitelist:
the list it writes. -/
def requestWhitelist (stored : Option (List JSString)) (site : JSString) : List JSString :=
  pushIfAbsent (stored.getD []) site

/-- A message received by the `onMessage` listener. -/
structure Message where
  type : JSString
  site : JSString
deriving DecidableEq

/-- The answer passed to `sendResponse`. -/
structure Response where
  success : Bool
deriving DecidableEq

/-- The `onMessage` listener: the storage afterwards and the response, if any. -/
def onMessage (st : Storage) (msg : Message) : Storage × Option Response :=
  if msg.type = "whitelist".toList then
    ({ st with whitelist := some (requestWhitelist st.whitelist msg.site) },
      some { success := true })
  else (st, none)

/-- The remove button of `renderList`: `list.splice(i, 1)`. -/
def removeAt (list : List JSString) (i : Nat) : List JSString := list.eraseIdx i

/-- The arrays the options page holds after rendering, one per list. -/
structure Page where
  siteList : List JSString
  whiteList : List JSString
deriving DecidableEq

/-- The storage together with the options page, when it is open. -/
structure Sys where
  store : Storage
  page : Option Page
deriving DecidableEq

/-- The events that write a list. -/
inductive Op where
  | install
  | openOptions
  | addSite (inputValue : JSString)
  | addWhite (inputValue : JSString)
  | removeSite (i : Nat)
  | removeWhite (i : Nat)
  | message (msg : Message)
deriving DecidableEq

/-- One event of the system.  The buttons of the options page exist only while
the page is open; a remove works on the array rendered last and writes it back. -/
def step (s : Sys) : Op → Sys
  | .install => { s with store := onInstalled s.store }
  | .openOptions =>
    { s with page := some { siteList := s.store.blocklist.getD [],
                            whiteList := s.store.whitelist.getD [] } }
  | .addSite v =>
    match s.page with
    | none => s
    | some p =>
      match optionsAdd s.store.blocklist v with
      | none => s
      | some list =>
        { store := { s.store with blocklist := some list },
          page := some { p with siteList := list } }
  | .addWhite v =>
    match s.page with
    | none => s
    | some p =>
      match optionsAdd s.store.whitelist v with
      | none => s
      | some list =>
        { store := { s.store with whitelist := some list },
          page := some { p with whiteList := list } }
  | .removeSite i =>
    match s.page with
    | none => s
    | some p =>
      let list := removeAt p.siteList i
      { store := { s.store with blocklist := some list },
        page := some { p with siteList := list } }
  | .removeWhite i =>
    match s.page with
    | none => s
    | some p =>
      let list := removeAt p.whiteList i
      { store := { s.store with whitelist := some list },
        page := some { p with whiteList := list } }
  | .message msg => { s with store := (onMessage s.store msg).1 }

/-- The system after a sequence of events. -/
def run (s : Sys) (ops : List Op) : Sys := ops.foldl step s

/-- The state before anything was stored, with the options page closed. -/
def emptySys : Sys := { store := { blocklist := none, whitelist := none }, page := none }

/-- Both stored lists are free of duplicates. -/
def StoreNodup (st : Storage) : Prop :=
  (st.blocklist.getD []).Nodup ∧ (st.whitelist.getD []).Nodup

/-- Every entry of both stored lists is a non-empty string. -/
def StoreNonEmpty (st : Storage) : Prop :=
  (∀ p ∈ st.blocklist.getD [], p ≠ []) ∧ (∀ p ∈ st.whitelist.getD [], p ≠ [])

/-- Both arrays held by the options page, when open, are free of duplicates. -/
def PageNodup : Option Page → Prop
  | none => True
  | some p => p.siteList.Nodup ∧ p.whiteList.Nodup

/-- The list stored under a key after a click on the add button of the options
page, when `list` was stored before. -/
def optionsAddResult (list : List JSString) (inputValue : JSString) : List JSString :=
  (optionsAdd (some list) inputValue).getD list

/-! ## Lemmas on the builtins -/

theorem arrayIncludes_iff (list : List JSString) (x : JSString) :
    arrayIncludes list x = true ↔ x ∈ list := by
  simp [arrayIncludes]

theorem includes_iff_isInfix (s t : JSString) : includes s t = true ↔ t <:+: s := by
  induction s with
  | nil => simp [includes, List.isEmpty_iff]
  | cons c s ih =>
    simp only [includes, Bool.or_eq_true, ih, List.infix_cons_iff]
    constructor
    · rintro (h | h)
      · exact Or.inl (List.isPrefixOf_iff_prefix.mp h)
      · exact Or.inr h
    · rintro (h | h)
      · exact Or.inl (List.isPrefixOf_iff_prefix.mpr h)
      · exact Or.inr h

theorem matchList_iff (toLowerCase : JSString → JSString) (url : JSString)
    (list : List JSString) :
    matchList toLowerCase url list = true ↔
      ∃ p ∈ list, toLowerCase p <:+: toLowerCase url := by
  simp [matchList, List.any_eq_true, includes_iff_isInfix]

theorem pushIfAbsent_eq (list : List JSString) (site : JSString) :
    pushIfAbsent list site = if site ∈ list then list else list ++ [site] := by
  unfold pushIfAbsent
  by_cases h : site ∈ list
  · simp [h, arrayIncludes]
  · simp [h, arrayIncludes]

theorem setAdd_eq (s : List JSString) (x : JSString) :
    setAdd s x = if x ∈ s then s else s ++ [x] := pushIfAbsent_eq s x

theorem pushIfAbsent_nodup {list : List JSString} (h : list.Nodup) (site : JSString) :
    (pushIfAbsent list site).Nodup := by
  rw [pushIfAbsent_eq]
  split
  · exact h
  · rename_i hs
    exact List.nodup_append.mpr ⟨h, List.nodup_singleton _, by
      intro a ha hb
      simp only [List.mem_singleton] at hb
      exact hs (hb ▸ ha)⟩

theorem mem_pushIfAbsent (list : List JSString) (site x : JSString) :
    x ∈ pushIfAbsent list site ↔ x ∈ list ∨ x = site := by
  rw [pushIfAbsent_eq]
  split
  · rename_i hs
    constructor
    · exact Or.inl
    · rintro (h | h)
      · exact h
      · exact h ▸ hs
  · simp

theorem foldl_setAdd_nodup (xs : List JSString) :
    ∀ acc : List JSString, acc.Nodup → (xs.foldl setAdd acc).Nodup := by
  induction xs with
  | nil => intro acc h; exact h
  | cons x xs ih =>
    intro acc h
    exact ih _ (pushIfAbsent_nodup h x)

theorem mem_foldl_setAdd (xs : List JSString) :
    ∀ (acc : List JSString) (y : JSString),
      y ∈ xs.foldl setAdd acc ↔ y ∈ acc ∨ y ∈ xs := by
  induction xs with
  | nil => intro acc y; simp
  | cons x xs ih =>
    intro acc y
    rw [List.foldl_cons, ih, show setAdd acc x = pushIfAbsent acc x from rfl,
      mem_pushIfAbsent, List.mem_cons, or_assoc]

theorem foldl_setAdd_sublist (xs : List JSString) :
    ∀ acc : List JSString, ∃ r, xs.foldl setAdd acc = acc ++ r ∧ r.Sublist xs := by
  induction xs with
  | nil => intro acc; exact ⟨[], by simp, List.Sublist.refl _⟩
  | cons x xs ih =>
    intro acc
    rw [List.foldl_cons, setAdd_eq]
    split
    · obtain ⟨r, hr, hs⟩ := ih acc
      exact ⟨r, hr, hs.cons x⟩
    · obtain ⟨r, hr, hs⟩ := ih (acc ++ [x])
      exact ⟨x :: r, by simp [hr], hs.cons₂ x⟩

theorem foldl_setAdd_of_nodup (xs : List JSString) :
    ∀ acc : List JSString, xs.Nodup →
      xs.foldl setAdd acc = acc ++ xs.filter (fun d => !arrayIncludes acc d) := by
  induction xs with
  | nil => intro acc _; simp
  | cons x xs ih =>
    intro acc h
    have hx : x ∉ xs := (List.nodup_cons.mp h).1
    have hxs : xs.Nodup := (List.nodup_cons.mp h).2
    rw [List.foldl_cons, setAdd_eq]
    by_cases hm : x ∈ acc
    · rw [if_pos hm, ih acc hxs]
      simp [List.filter_cons, arrayIncludes, hm]
    · rw [if_neg hm, ih _ hxs]
      have hf : xs.filter (fun d => !arrayIncludes (acc ++ [x]) d)
          = xs.filter (fun d => !arrayIncludes acc d) := by
        apply List.filter_congr
        intro d hd
        have hne : d ≠ x := fun e => hx (e ▸ hd)
        simp [arrayIncludes, hne]
      rw [hf]
      simp [List.filter_cons, arrayIncludes, hm]

theorem arrayFromSet_of_nodup {xs : List JSString} (h : xs.Nodup) : arrayFromSet xs = xs := by
  unfold arrayFromSet
  rw [foldl_setAdd_of_nodup xs [] h]
  simp [arrayIncludes]

theorem arrayFromSet_nodup (xs : List JSString) : (arrayFromSet xs).Nodup :=
  foldl_setAdd_nodup xs [] List.nodup_nil

theorem mem_arrayFromSet (xs : List JSString) (y : JSString) :
    y ∈ arrayFromSet xs ↔ y ∈ xs := by
  simp [arrayFromSet, mem_foldl_setAdd]

theorem arrayFromSet_sublist (xs : List JSString) : (arrayFromSet xs).Sublist xs := by
  obtain ⟨r, hr, hs⟩ := foldl_setAdd_sublist xs []
  unfold arrayFromSet
  rw [hr]
  simpa using hs

theorem mustBlockDomains_nodup : mustBlockDomains.Nodup := by decide

theorem installMerge_eq (stored : Option (List JSString)) :
    installMerge stored = arrayFromSet (stored.getD []) ++
      mustBlockDomains.filter (fun d => !arrayIncludes (stored.getD []) d) := by
  unfold installMerge arrayFromSet
  rw [List.foldl_append, foldl_setAdd_of_nodup _ _ mustBlockDomains_nodup]
  congr 1
  apply List.filter_congr
  intro d _
  have := mem_arrayFromSet (stored.getD []) d
  unfold arrayFromSet at this
  simp [arrayIncludes, this]

theorem count_eq_one_of_nodup (l : List JSString) (x : JSString) (h : l.Nodup) (hx : x ∈ l) :
    l.count x = 1 := by
  induction l with
  | nil => cases hx
  | cons a l ih =>
    rw [List.count_cons]
    obtain ⟨ha, hl⟩ := List.nodup_cons.mp h
    by_cases e : a = x
    · subst e
      have h0 : l.count a = 0 := List.count_eq_zero.mpr ha
      simp [h0]
    · have hx2 : x ∈ l := by
        rcases List.mem_cons.mp hx with h1 | h1
        · exact absurd h1.symm e
        · exact h1
      simp [ih hl hx2, e]

theorem removeAt_sublist (list : List JSString) (i : Nat) : (removeAt list i).Sublist list :=
  List.eraseIdx_sublist list i

/-! ## Lemmas on the decision engine -/

theorem onBeforeNavigate_top (toLowerCase : JSString → JSString)
    (fetch : JSString → FetchOutcome) (st : Storage) (title : JSString) (details : Details)
    (hframe : details.frameId = 0) (hhttp : startsWith details.url "http".toList = true) :
    onBeforeNavigate toLowerCase fetch st title details =
      [.tabsGet details.tabId, .storageGet ["blocklist".toList, "whitelist".toList]] ++
        if matchList toLowerCase details.url (DEFAULT_SAFE ++ st.whitelist.getD []) then []
        else if matchList toLowerCase details.url (st.blocklist.getD []) then
          [.tabsUpdate details.tabId details.url (.text "In the required blocklist".toList)]
        else
          .fetch (classifierInput details.url title) ::
            if arrayIncludes HIGH_RISK_LABELS
                  (classifySite (fetch (classifierInput details.url title))).label &&
                scoreAtLeast (classifySite (fetch (classifierInput details.url title))).score
                  BLOCK_THRESHOLD then
              [.tabsUpdate details.tabId details.url
                (.aiClassified (classifySite (fetch (classifierInput details.url title))).label
                  (classifySite (fetch (classifierInput details.url title))).score)]
            else [] := by
  unfold onBeforeNavigate
  rw [hframe, hhttp]
  rfl

theorem onBeforeNavigate_classified (toLowerCase : JSString → JSString)
    (fetch : JSString → FetchOutcome) (st : Storage) (title : JSString) (details : Details)
    (hframe : details.frameId = 0) (hhttp : startsWith details.url "http".toList = true)
    (hallow : matchList toLowerCase details.url (DEFAULT_SAFE ++ st.whitelist.getD []) = false)
    (hdeny : matchList toLowerCase details.url (st.blocklist.getD []) = false) :
    onBeforeNavigate toLowerCase fetch st title details =
      [.tabsGet details.tabId, .storageGet ["blocklist".toList, "whitelist".toList],
        .fetch (classifierInput details.url title)] ++
        if arrayIncludes HIGH_RISK_LABELS
              (classifySite (fetch (classifierInput details.url title))).label &&
            scoreAtLeast (classifySite (fetch (classifierInput details.url title))).score
              BLOCK_THRESHOLD then
          [.tabsUpdate details.tabId details.url
            (.aiClassified (classifySite (fetch (classifierInput details.url title))).label
              (classifySite (fetch (classifierInput details.url title))).score)]
        else [] := by
  rw [onBeforeNavigate_top toLowerCase fetch st title details hframe hhttp, hallow, hdeny]
  simp

theorem scoreAtLeast_iff (score : Option ℚ) (threshold : ℚ) :
    scoreAtLeast score threshold = true ↔ ∃ q, score = some q ∧ threshold ≤ q := by
  cases score <;> simp [scoreAtLeast]

theorem onBeforeNavigate_filtered (toLowerCase : JSString → JSString)
    (fetch : JSString → FetchOutcome) (st : Storage) (title : JSString) (details : Details)
    (h : details.frameId ≠ 0 ∨ startsWith details.url "http".toList = false) :
    onBeforeNavigate toLowerCase fetch st title details = [] := by
  unfold onBeforeNavigate
  rcases h with h | h
  · rw [if_pos]
    rw [Bool.or_eq_true]
    exact Or.inl (decide_eq_true h)
  · rw [if_pos]
    rw [h]
    simp

theorem startsWith_scheme (url : JSString) (h : startsWith url "http".toList = true) :
    startsWith (scheme url) "http".toList = true := by
  unfold startsWith at h
  obtain ⟨t, rfl⟩ := List.isPrefixOf_iff_prefix.mp h
  simp [startsWith, scheme, List.takeWhile]

/-! ## Lemmas on the list editor -/

theorem optionsAdd_nodup {stored : Option (List JSString)} {v : JSString}
    {list : List JSString} (h : (stored.getD []).Nodup) (hl : optionsAdd stored v = some list) :
    list.Nodup := by
  unfold optionsAdd at hl
  simp only at hl
  split at hl
  · cases hl
  · cases hl
    exact pushIfAbsent_nodup h _

theorem optionsAddResult_nodup {list : List JSString} (h : list.Nodup) (v : JSString) :
    (optionsAddResult list v).Nodup := by
  unfold optionsAddResult
  cases hl : optionsAdd (some list) v with
  | none => exact h
  | some l => exact @optionsAdd_nodup (some list) v l h hl

theorem removeAt_nodup {list : List JSString} (h : list.Nodup) (i : Nat) :
    (removeAt list i).Nodup :=
  h.sublist (removeAt_sublist list i)

theorem step_nodup (s : Sys) (op : Op) (hs : StoreNodup s.store) (hp : PageNodup s.page) :
    StoreNodup (step s op).store ∧ PageNodup (step s op).page := by
  obtain ⟨⟨bl, wl⟩, page⟩ := s
  obtain ⟨hb, hw⟩ := hs
  simp only at hb hw hp
  cases op with
  | install =>
    exact ⟨⟨arrayFromSet_nodup _, hw⟩, hp⟩
  | openOptions =>
    exact ⟨⟨hb, hw⟩, ⟨hb, hw⟩⟩
  | addSite v =>
    cases page with
    | none => exact ⟨⟨hb, hw⟩, hp⟩
    | some p =>
      simp only [step]
      cases hl : optionsAdd bl v with
      | none => exact ⟨⟨hb, hw⟩, hp⟩
      | some l =>
        have hn := optionsAdd_nodup hb hl
        exact ⟨⟨hn, hw⟩, ⟨hn, hp.2⟩⟩
  | addWhite v =>
    cases page with
    | none => exact ⟨⟨hb, hw⟩, hp⟩
    | some p =>
      simp only [step]
      cases hl : optionsAdd wl v with
      | none => exact ⟨⟨hb, hw⟩, hp⟩
      | some l =>
        have hn := optionsAdd_nodup hw hl
        exact ⟨⟨hb, hn⟩, ⟨hp.1, hn⟩⟩
  | removeSite i =>
    cases page with
    | none => exact ⟨⟨hb, hw⟩, hp⟩
    | some p =>
      have hn := removeAt_nodup hp.1 i
      exact ⟨⟨hn, hw⟩, ⟨hn, hp.2⟩⟩
  | removeWhite i =>
    cases page with
    | none => exact ⟨⟨hb, hw⟩, hp⟩
    | some p =>
      have hn := removeAt_nodup hp.2 i
      exact ⟨⟨hb, hn⟩, ⟨hp.1, hn⟩⟩
  | message msg =>
    simp only [step, onMessage]
    split
    · exact ⟨⟨hb, pushIfAbsent_nodup hw _⟩, hp⟩
    · exact ⟨⟨hb, hw⟩, hp⟩

theorem run_nodup (ops : List Op) :
    ∀ s : Sys, StoreNodup s.store → PageNodup s.page →
      StoreNodup (run s ops).store ∧ PageNodup (run s ops).page := by
  induction ops with
  | nil => intro s hs hp; exact ⟨hs, hp⟩
  | cons op ops ih =>
    intro s hs hp
    obtain ⟨h1, h2⟩ := step_nodup s op hs hp
    exact ih (step s op) h1 h2

theorem includes_nil (s : JSString) : includes s [] = true :=
  (includes_iff_isInfix s []).mpr List.nil_infix

theorem trim_ne_nil_of_optionsAdd {stored : Option (List JSString)} {v : JSString}
    {list : List JSString} (hl : optionsAdd stored v = some list) :
    trim v ≠ [] ∧ list = pushIfAbsent (stored.getD []) (trim v) := by
  unfold optionsAdd at hl
  simp only at hl
  split at hl
  · cases hl
  · rename_i h
    cases hl
    exact ⟨fun e => h (by simp [e]), rfl⟩

theorem mustBlockDomains_nonEmpty : ∀ p ∈ mustBlockDomains, p ≠ [] := by decide

/-! ## The claims -/

/-- C1. Allow-list precedence: on a top-frame navigation whose url starts with
"http", if the lower-cased url contains the lower-cased form of an entry of
`DEFAULT_SAFE` or of the whitelist, the listener only looks up the tab and reads
the lists: it sends no classifier request and issues no redirect, whatever the
blocklist and the classifier are. -/
theorem allow_list_precedence (toLowerCase : JSString → JSString)
    (fetch : JSString → FetchOutcome) (st : Storage) (title : JSString) (details : Details)
    (hframe : details.frameId = 0) (hhttp : startsWith details.url "http".toList = true)
    (hsafe : ∃ p, (p ∈ DEFAULT_SAFE ∨ p ∈ st.whitelist.getD []) ∧
      toLowerCase p <:+: toLowerCase details.url) :
    onBeforeNavigate toLowerCase fetch st title details =
        [.tabsGet details.tabId, .storageGet ["blocklist".toList, "whitelist".toList]] ∧
      blockReason (onBeforeNavigate toLowerCase fetch st title details) = none ∧
      (onBeforeNavigate toLowerCase fetch st title details).any Effect.isFetch = false ∧
      (onBeforeNavigate toLowerCase fetch st title details).any Effect.isRedirect = false := by
  have hm : matchList toLowerCase details.url (DEFAULT_SAFE ++ st.whitelist.getD []) = true := by
    rw [matchList_iff]
    obtain ⟨p, hp, hin⟩ := hsafe
    exact ⟨p, List.mem_append.mpr hp, hin⟩
  have h := onBeforeNavigate_top toLowerCase fetch st title details hframe hhttp
  rw [hm] at h
  simp only [if_true, List.append_nil] at h
  rw [h]
  exact ⟨rfl, rfl, rfl, rfl⟩

/-- C1, at the url "https://docs.google.com/doc1" with "docs.google.com" in the
blocklist and a classifier that would answer gaming with score 1. -/
theorem allow_list_precedence_witness :
    onBeforeNavigate asciiLower
        (fun _ => .json { error := false, labels := some ["gaming".toList], scores := some [1] })
        { blocklist := some ["docs.google.com".toList], whitelist := none } "Doc".toList
        { frameId := 0, tabId := 7, url := "https://docs.google.com/doc1".toList } =
      [.tabsGet 7, .storageGet ["blocklist".toList, "whitelist".toList]] :=
  (allow_list_precedence asciiLower
    (fun _ => .json { error := false, labels := some ["gaming".toList], scores := some [1] })
    { blocklist := some ["docs.google.com".toList], whitelist := none } "Doc".toList
    { frameId := 0, tabId := 7, url := "https://docs.google.com/doc1".toList }
    rfl (by decide)
    ⟨"google.com".toList, Or.inl (by decide),
      (includes_iff_isInfix _ _).mp (by decide)⟩).1

/-- C2. Deny-list stage: on a top-frame navigation whose url starts with "http",
when `matchList` is false on the allow patterns and true on the blocklist, the
listener redirects the tab to the block page with the url and the reason
"In the required blocklist", and sends no classifier request. -/
theorem deny_list_stage (toLowerCase : JSString → JSString)
    (fetch : JSString → FetchOutcome) (st : Storage) (title : JSString) (details : Details)
    (hframe : details.frameId = 0) (hhttp : startsWith details.url "http".toList = true)
    (hallow : matchList toLowerCase details.url (DEFAULT_SAFE ++ st.whitelist.getD []) = false)
    (hdeny : matchList toLowerCase details.url (st.blocklist.getD []) = true) :
    onBeforeNavigate toLowerCase fetch st title details =
        [.tabsGet details.tabId, .storageGet ["blocklist".toList, "whitelist".toList],
          .tabsUpdate details.tabId details.url (.text "In the required blocklist".toList)] ∧
      blockReason (onBeforeNavigate toLowerCase fetch st title details) =
        some (.text "In the required blocklist".toList) ∧
      (onBeforeNavigate toLowerCase fetch st title details).any Effect.isFetch = false := by
  have h := onBeforeNavigate_top toLowerCase fetch st title details hframe hhttp
  rw [hallow, hdeny] at h
  simp only [if_true, Bool.false_eq_true, if_false] at h
  rw [h]
  exact ⟨rfl, rfl, rfl⟩

/-- C2, at the url "https://roblox.com/play" with "roblox.com" in the blocklist. -/
theorem deny_list_stage_witness :
    onBeforeNavigate asciiLower (fun _ => .threw)
        { blocklist := some ["roblox.com".toList], whitelist := none } "Roblox".toList
        { frameId := 0, tabId := 3, url := "https://roblox.com/play".toList } =
      [.tabsGet 3, .storageGet ["blocklist".toList, "whitelist".toList],
        .tabsUpdate 3 "https://roblox.com/play".toList
          (.text "In the required blocklist".toList)] :=
  (deny_list_stage asciiLower (fun _ => .threw)
    { blocklist := some ["roblox.com".toList], whitelist := none } "Roblox".toList
    { frameId := 0, tabId := 3, url := "https://roblox.com/play".toList }
    rfl (by decide) (by decide) (by decide)).1

/-- C3. Classifier stage: on a top-frame navigation whose url starts with "http"
and matches neither the allow patterns nor the blocklist, for every result
`{label, score}` of `classifySite` a redirect is issued exactly when the label is
one of the eight high-risk labels and the score is at least the double `0.6`;
otherwise only the classifier request is made.  A high-risk label at the double
`0.6` blocks, at the double `0.5999` it does not, and the labels educational,
work and entertainment block at no score. -/
theorem classifier_stage (toLowerCase : JSString → JSString)
    (fetch : JSString → FetchOutcome) (st : Storage) (title : JSString) (details : Details)
    (label : JSString) (score : Option ℚ)
    (hframe : details.frameId = 0) (hhttp : startsWith details.url "http".toList = true)
    (hallow : matchList toLowerCase details.url (DEFAULT_SAFE ++ st.whitelist.getD []) = false)
    (hdeny : matchList toLowerCase details.url (st.blocklist.getD []) = false)
    (hres : classifySite (fetch (classifierInput details.url title)) =
      { label := label, score := score }) :
    (blockReason (onBeforeNavigate toLowerCase fetch st title details) ≠ none ↔
        (label ∈ ["adult".toList, "unsafe".toList, "gaming".toList, "music".toList,
            "social media".toList, "gambling".toList, "proxy".toList, "cheating".toList] ∧
          ∃ q, score = some q ∧ BLOCK_THRESHOLD ≤ q)) ∧
      (blockReason (onBeforeNavigate toLowerCase fetch st title details) ≠ none →
        onBeforeNavigate toLowerCase fetch st title details =
          [.tabsGet details.tabId, .storageGet ["blocklist".toList, "whitelist".toList],
            .fetch (classifierInput details.url title),
            .tabsUpdate details.tabId details.url (.aiClassified label score)]) ∧
      (blockReason (onBeforeNavigate toLowerCase fetch st title details) = none →
        onBeforeNavigate toLowerCase fetch st title details =
          [.tabsGet details.tabId, .storageGet ["blocklist".toList, "whitelist".toList],
            .fetch (classifierInput details.url title)]) ∧
      (label ∈ HIGH_RISK_LABELS → score = some BLOCK_THRESHOLD →
        blockReason (onBeforeNavigate toLowerCase fetch st title details) =
          some (.aiClassified label score)) ∧
      (label ∈ HIGH_RISK_LABELS → score = some double_0_5999 →
        blockReason (onBeforeNavigate toLowerCase fetch st title details) = none) ∧
      (label ∈ ["educational".toList, "work".toList, "entertainment".toList] →
        blockReason (onBeforeNavigate toLowerCase fetch st title details) = none) := by
  have h := onBeforeNavigate_classified toLowerCase fetch st title details hframe hhttp
    hallow hdeny
  rw [hres] at h
  simp only at h
  have hlab : arrayIncludes HIGH_RISK_LABELS label = true ↔
      label ∈ ["adult".toList, "unsafe".toList, "gaming".toList, "music".toList,
        "social media".toList, "gambling".toList, "proxy".toList, "cheating".toList] :=
    arrayIncludes_iff _ _
  by_cases hc : (arrayIncludes HIGH_RISK_LABELS label && scoreAtLeast score BLOCK_THRESHOLD) = true
  · rw [if_pos hc] at h
    have hb : blockReason (onBeforeNavigate toLowerCase fetch st title details) =
        some (.aiClassified label score) := by rw [h]; rfl
    have hc2 := hc
    rw [Bool.and_eq_true, hlab, scoreAtLeast_iff] at hc2
    refine ⟨⟨fun _ => hc2, fun _ => by rw [hb]; simp⟩, fun _ => h, ?_, fun _ _ => hb, ?_, ?_⟩
    · intro hn; rw [hb] at hn; cases hn
    · intro _ hs
      obtain ⟨q, hq, hle⟩ := hc2.2
      rw [hs] at hq
      cases hq
      exact absurd hle (by unfold BLOCK_THRESHOLD double_0_5999; norm_num)
    · intro hl
      exfalso
      have hmem := hc2.1
      simp only [List.mem_cons, List.mem_singleton, List.not_mem_nil, or_false] at hl hmem
      rcases hl with hl | hl | hl <;> subst hl <;> revert hmem <;> decide
  · rw [if_neg hc, List.append_nil] at h
    have hb : blockReason (onBeforeNavigate toLowerCase fetch st title details) = none := by
      rw [h]; rfl
    have hc2 : ¬ (label ∈ ["adult".toList, "unsafe".toList, "gaming".toList, "music".toList,
        "social media".toList, "gambling".toList, "proxy".toList, "cheating".toList] ∧
        ∃ q, score = some q ∧ BLOCK_THRESHOLD ≤ q) := by
      rw [← hlab, ← scoreAtLeast_iff, ← Bool.and_eq_true]
      exact hc
    refine ⟨⟨fun hn => absurd hb hn, fun hx => absurd hx hc2⟩, fun hn => absurd hb hn,
      fun _ => h, ?_, fun _ _ => hb, fun _ => hb⟩
    intro hl hs
    exfalso
    exact hc2 ⟨(arrayIncludes_iff _ _).mp ((arrayIncludes_iff HIGH_RISK_LABELS label).mpr hl),
      BLOCK_THRESHOLD, hs, le_refl _⟩

/-- C3, at the url "https://randomsite.biz" with empty lists and a classifier
answering gaming with the double `0.6`: the tab is redirected. -/
theorem classifier_stage_witness :
    blockReason (onBeforeNavigate asciiLower
        (fun _ => .json { error := false, labels := some ["gaming".toList],
                          scores := some [BLOCK_THRESHOLD] })
        { blocklist := none, whitelist := none } "Play free games".toList
        { frameId := 0, tabId := 1, url := "https://randomsite.biz".toList }) =
      some (.aiClassified "gaming".toList (some BLOCK_THRESHOLD)) :=
  (classifier_stage asciiLower
    (fun _ => .json { error := false, labels := some ["gaming".toList],
                      scores := some [BLOCK_THRESHOLD] })
    { blocklist := none, whitelist := none } "Play free games".toList
    { frameId := 0, tabId := 1, url := "https://randomsite.biz".toList }
    "gaming".toList (some BLOCK_THRESHOLD)
    rfl (by decide) (by decide) (by decide) rfl).2.2.2.1 (by decide) rfl

/-- C4. Classifier failure never blocks: when the request or the JSON parsing
throws, or the response has a truthy `error`, no `labels`, or an empty `labels`
array, `classifySite` returns `{label: "educational", score: 0.0}`, and on a
top-frame "http" navigation matched by neither the allow patterns nor the
blocklist the listener makes the classifier request and issues no redirect. -/
theorem classifier_failure_allows (toLowerCase : JSString → JSString)
    (fetch : JSString → FetchOutcome) (st : Storage) (title : JSString) (details : Details)
    (hframe : details.frameId = 0) (hhttp : startsWith details.url "http".toList = true)
    (hallow : matchList toLowerCase details.url (DEFAULT_SAFE ++ st.whitelist.getD []) = false)
    (hdeny : matchList toLowerCase details.url (st.blocklist.getD []) = false)
    (hfail : fetch (classifierInput details.url title) = .threw ∨
      ∃ result, fetch (classifierInput details.url title) = .json result ∧
        (result.error = true ∨ result.labels = none ∨ result.labels = some [])) :
    classifySite (fetch (classifierInput details.url title)) =
        { label := "educational".toList, score := some 0 } ∧
      onBeforeNavigate toLowerCase fetch st title details =
        [.tabsGet details.tabId, .storageGet ["blocklist".toList, "whitelist".toList],
          .fetch (classifierInput details.url title)] ∧
      blockReason (onBeforeNavigate toLowerCase fetch st title details) = none ∧
      (onBeforeNavigate toLowerCase fetch st title details).any Effect.isRedirect = false := by
  have hcl : classifySite (fetch (classifierInput details.url title)) = safeDefault := by
    rcases hfail with h | ⟨result, h, hr⟩
    · rw [h]; rfl
    · rw [h]
      rcases hr with hr | hr | hr
      · simp [classifySite, hr]
      · by_cases he : result.error = true
        · simp [classifySite, he]
        · simp [classifySite, he, hr]
      · by_cases he : result.error = true
        · simp [classifySite, he]
        · simp [classifySite, he, hr]
  have h := onBeforeNavigate_classified toLowerCase fetch st title details hframe hhttp
    hallow hdeny
  rw [hcl] at h
  have hno : (arrayIncludes HIGH_RISK_LABELS safeDefault.label &&
      scoreAtLeast safeDefault.score BLOCK_THRESHOLD) = false := by
    have : arrayIncludes HIGH_RISK_LABELS safeDefault.label = false := by decide
    rw [this, Bool.false_and]
  rw [hno] at h
  simp only [Bool.false_eq_true, if_false, List.append_nil] at h
  rw [h]
  exact ⟨hcl, rfl, rfl, rfl⟩

/-- C4, at the url "https://randomsite.biz" with empty lists and a request that throws. -/
theorem classifier_failure_allows_witness :
    onBeforeNavigate asciiLower (fun _ => .threw)
        { blocklist := none, whitelist := none } "".toList
        { frameId := 0, tabId := 1, url := "https://randomsite.biz".toList } =
      [.tabsGet 1, .storageGet ["blocklist".toList, "whitelist".toList],
        .fetch "Unknown Title - https://randomsite.biz".toList] :=
  (classifier_failure_allows asciiLower (fun _ => .threw)
    { blocklist := none, whitelist := none } "".toList
    { frameId := 0, tabId := 1, url := "https://randomsite.biz".toList }
    rfl (by decide) (by decide) (by decide) (Or.inl rfl)).2.1

/-- C5. Install merge is a union: for every stored blocklist (absent counts as
empty) the list written by the `onInstalled` listener contains every must-block
domain and every stored entry and nothing else; it is the stored entries in their
order of first occurrence (the stored list itself when that is duplicate-free)
followed by the must-block domains that were not stored. -/
theorem install_merge_union (stored : Option (List JSString)) :
    (∀ d ∈ mustBlockDomains, d ∈ installMerge stored) ∧
      (∀ x ∈ stored.getD [], x ∈ installMerge stored) ∧
      (∀ x ∈ installMerge stored, x ∈ stored.getD [] ∨ x ∈ mustBlockDomains) ∧
      (∃ kept, installMerge stored =
          kept ++ mustBlockDomains.filter (fun d => !arrayIncludes (stored.getD []) d) ∧
        kept.Sublist (stored.getD []) ∧ (∀ x ∈ stored.getD [], x ∈ kept) ∧
        ((stored.getD []).Nodup → kept = stored.getD [])) ∧
      (∀ whitelist, onInstalled { blocklist := stored, whitelist := whitelist } =
        { blocklist := some (installMerge stored), whitelist := whitelist }) := by
  have hmem : ∀ x, x ∈ installMerge stored ↔ x ∈ stored.getD [] ∨ x ∈ mustBlockDomains := by
    intro x
    unfold installMerge
    rw [mem_arrayFromSet, List.mem_append]
  refine ⟨fun d hd => (hmem d).mpr (Or.inr hd), fun x hx => (hmem x).mpr (Or.inl hx),
    fun x hx => (hmem x).mp hx, ?_, fun _ => rfl⟩
  exact ⟨arrayFromSet (stored.getD []), installMerge_eq stored, arrayFromSet_sublist _,
    fun x hx => (mem_arrayFromSet _ x).mpr hx, fun h => arrayFromSet_of_nodup h⟩

/-- C5, on the stored blocklist `["example.org", "roblox.com"]`. -/
theorem install_merge_union_witness :
    installMerge (some ["example.org".toList, "roblox.com".toList]) =
      ["example.org".toList, "roblox.com".toList] ++
        mustBlockDomains.filter (fun d => !arrayIncludes
          ["example.org".toList, "roblox.com".toList] d) := by
  obtain ⟨kept, h, _, _, hk⟩ :=
    (install_merge_union (some ["example.org".toList, "roblox.com".toList])).2.2.2.1
  rw [h, hk (by decide)]
  rfl

/-- C6. Matcher: `matchList(url, list)` is true exactly when some pattern of the
list, lower-cased, is a contiguous block of the lower-cased url.  So it is false
on the empty list, it gives the same answer on urls and pattern lists that agree
after lower-casing, and it ignores host boundaries: "able.com" matches
"https://disable.com". -/
theorem matchList_spec (toLowerCase : JSString → JSString) (url : JSString)
    (list : List JSString) :
    (matchList toLowerCase url list = true ↔
        ∃ p ∈ list, ∃ pre post, toLowerCase url = pre ++ toLowerCase p ++ post) ∧
      matchList toLowerCase url [] = false ∧
      (∀ url2 list2, toLowerCase url2 = toLowerCase url →
        list2.map toLowerCase = list.map toLowerCase →
        matchList toLowerCase url2 list2 = matchList toLowerCase url list) ∧
      matchList asciiLower "https://disable.com".toList ["able.com".toList] = true ∧
      matchList asciiLower "HTTPS://Disable.COM".toList ["ABLE.com".toList] = true := by
  refine ⟨?_, rfl, ?_, by decide, by decide⟩
  · rw [matchList_iff]
    constructor
    · rintro ⟨p, hp, pre, post, h⟩
      exact ⟨p, hp, pre, post, h.symm⟩
    · rintro ⟨p, hp, pre, post, h⟩
      exact ⟨p, hp, pre, post, h.symm⟩
  · intro url2 list2 hu hl
    have key : ∀ l : List JSString, matchList toLowerCase url l =
        (l.map toLowerCase).any (fun q => includes (toLowerCase url) q) := by
      intro l
      simp [matchList, List.any_map, Function.comp_def]
    have key2 : ∀ l : List JSString, matchList toLowerCase url2 l =
        (l.map toLowerCase).any (fun q => includes (toLowerCase url) q) := by
      intro l
      simp [matchList, List.any_map, Function.comp_def, hu]
    rw [key, key2, hl]

/-- C6, on the url "https://Part.com" and the pattern "art.com". -/
theorem matchList_spec_witness :
    matchList asciiLower "https://Part.com".toList ["art.com".toList] = true :=
  (matchList_spec asciiLower "https://Part.com".toList ["art.com".toList]).1.mpr
    ⟨"art.com".toList, by decide, "https://p".toList, [], by decide⟩

/-- C7. Navigation filter: the listener ignores every sub-frame navigation and
every url whose scheme does not begin with "http", with no effect at all.  But
its test is a prefix test on the url: the url "httpx://roblox.com/" has the
scheme "httpx", which is neither "http" nor "https", and on a top-frame
navigation to it with "roblox.com" in the blocklist the listener reads the lists
and redirects the tab. -/
theorem navigation_filter_scheme_slip :
    scheme "httpx://roblox.com/".toList = "httpx".toList ∧
      scheme "httpx://roblox.com/".toList ≠ "http".toList ∧
      scheme "httpx://roblox.com/".toList ≠ "https".toList ∧
      onBeforeNavigate asciiLower (fun _ => .threw)
        { blocklist := some ["roblox.com".toList], whitelist := none } "".toList
        { frameId := 0, tabId := 3, url := "httpx://roblox.com/".toList } =
      [.tabsGet 3, .storageGet ["blocklist".toList, "whitelist".toList],
        .tabsUpdate 3 "httpx://roblox.com/".toList
          (.text "In the required blocklist".toList)] ∧
      (∀ (toLowerCase : JSString → JSString) (fetch : JSString → FetchOutcome)
          (st : Storage) (title : JSString) (details : Details),
        details.frameId ≠ 0 →
          onBeforeNavigate toLowerCase fetch st title details = []) ∧
      (∀ (toLowerCase : JSString → JSString) (fetch : JSString → FetchOutcome)
          (st : Storage) (title : JSString) (details : Details),
        startsWith (scheme details.url) "http".toList = false →
          onBeforeNavigate toLowerCase fetch st title details = []) := by
  refine ⟨by decide, by decide, by decide, by decide, ?_, ?_⟩
  · intro toLowerCase fetch st title details h
    exact onBeforeNavigate_filtered toLowerCase fetch st title details (Or.inl h)
  · intro toLowerCase fetch st title details h
    apply onBeforeNavigate_filtered toLowerCase fetch st title details
    right
    cases hs : startsWith details.url "http".toList with
    | false => rfl
    | true => rw [startsWith_scheme details.url hs] at h; cases h

/-- C8, as amended. For every duplicate-free list and every site `s`, the
whitelist-request handler leaves the list unchanged when `s` is present, appends
`s` otherwise, is idempotent, leaves exactly one occurrence of `s`, and answers
`{success: true}`.  The options-page add does the same with `trim s` in place of
`s` when `trim s` is not empty, and writes nothing when it is empty; it is
idempotent in both cases. -/
theorem add_idempotent (list : List JSString) (s : JSString) (hnd : list.Nodup) :
    (s ∈ list → requestWhitelist (some list) s = list) ∧
      (s ∉ list → requestWhitelist (some list) s = list ++ [s]) ∧
      requestWhitelist (some (requestWhitelist (some list) s)) s =
        requestWhitelist (some list) s ∧
      (requestWhitelist (some (requestWhitelist (some list) s)) s).count s = 1 ∧
      (∀ st : Storage,
        onMessage st { type := "whitelist".toList, site := s } =
          ({ st with whitelist := some (requestWhitelist st.whitelist s) },
            some { success := true })) ∧
      (trim s = [] → optionsAdd (some list) s = none) ∧
      (trim s ≠ [] → trim s ∈ list → optionsAdd (some list) s = some list) ∧
      (trim s ≠ [] → trim s ∉ list → optionsAdd (some list) s = some (list ++ [trim s])) ∧
      optionsAddResult (optionsAddResult list s) s = optionsAddResult list s ∧
      (trim s ≠ [] → (optionsAddResult (optionsAddResult list s) s).count (trim s) = 1) := by
  have hidem : ∀ (l : List JSString) (x : JSString),
      pushIfAbsent (pushIfAbsent l x) x = pushIfAbsent l x := by
    intro l x
    have hx : x ∈ pushIfAbsent l x := (mem_pushIfAbsent l x x).mpr (Or.inr rfl)
    rw [pushIfAbsent_eq (pushIfAbsent l x), if_pos hx]
  have hcount : ∀ x : JSString, (pushIfAbsent list x).count x = 1 :=
    fun x => count_eq_one_of_nodup _ x (pushIfAbsent_nodup hnd x)
      ((mem_pushIfAbsent list x x).mpr (Or.inr rfl))
  have hopt : ∀ l : List JSString, trim s ≠ [] →
      optionsAdd (some l) s = some (pushIfAbsent l (trim s)) := by
    intro l ht
    simp [optionsAdd, List.isEmpty_iff, ht]
  have hres : ∀ l : List JSString, trim s ≠ [] →
      optionsAddResult l s = pushIfAbsent l (trim s) := by
    intro l ht
    simp [optionsAddResult, hopt l ht]
  refine ⟨?_, ?_, ?_, ?_, ?_, ?_, ?_, ?_, ?_, ?_⟩
  · intro h
    simp [requestWhitelist, pushIfAbsent_eq, h]
  · intro h
    simp [requestWhitelist, pushIfAbsent_eq, h]
  · exact hidem list s
  · show (pushIfAbsent (pushIfAbsent list s) s).count s = 1
    rw [hidem]
    exact hcount s
  · intro st
    simp [onMessage]
  · intro h
    simp [optionsAdd, h]
  · intro ht h
    rw [hopt list ht, pushIfAbsent_eq, if_pos h]
  · intro ht h
    rw [hopt list ht, pushIfAbsent_eq, if_neg h]
  · by_cases ht : trim s = []
    · simp [optionsAddResult, optionsAdd, ht]
    · rw [hres _ ht, hres _ ht, hidem]
  · intro ht
    rw [hres _ ht, hres _ ht, hidem]
    exact hcount (trim s)

/-- C8 as amended, on the list `["a.com"]` and the site "b.com". -/
theorem add_idempotent_witness :
    requestWhitelist (some ["a.com".toList]) "b.com".toList =
        ["a.com".toList, "b.com".toList] ∧
      optionsAdd (some ["a.com".toList]) "b.com".toList =
        some ["a.com".toList, "b.com".toList] :=
  ⟨(add_idempotent ["a.com".toList] "b.com".toList (by decide)).2.1 (by decide),
   (add_idempotent ["a.com".toList] "b.com".toList (by decide)).2.2.2.2.2.2.2.1
      (by decide) (by decide)⟩

/-- C8 as stated fails for the options-page add: the empty site is not in the
empty list, yet after the click the list is still empty, not `[""]`; and the text
" a.com" leaves no occurrence of itself in the list. -/
theorem add_idempotent_counterexample :
    "".toList ∉ ([] : List JSString) ∧
      optionsAddResult [] "".toList = [] ∧
      optionsAddResult [] "".toList ≠ [] ++ ["".toList] ∧
      (optionsAddResult (optionsAddResult [] " a.com".toList) " a.com".toList).count
        " a.com".toList = 0 := by
  refine ⟨by decide, by decide, by decide, by decide⟩

/-- C9. List uniqueness: each operation that writes a list (install merge, add on
the options page, whitelist request, remove at any index) maps a duplicate-free
list to a duplicate-free list; one event of the system keeps the stored lists and
the arrays held by the options page duplicate-free; and after any sequence of
events from the empty state both stored lists are duplicate-free. -/
theorem lists_stay_duplicate_free :
    (∀ list : List JSString, list.Nodup →
        (installMerge (some list)).Nodup ∧ (∀ v, (optionsAddResult list v).Nodup) ∧
        (∀ s, (requestWhitelist (some list) s).Nodup) ∧ ∀ i, (removeAt list i).Nodup) ∧
      (∀ (s : Sys) (op : Op), StoreNodup s.store → PageNodup s.page →
        StoreNodup (step s op).store ∧ PageNodup (step s op).page) ∧
      (∀ ops : List Op, StoreNodup (run emptySys ops).store) := by
  refine ⟨fun list h => ⟨arrayFromSet_nodup _, optionsAddResult_nodup h,
    fun s => pushIfAbsent_nodup h s, removeAt_nodup h⟩, step_nodup, fun ops => ?_⟩
  exact (run_nodup ops emptySys ⟨List.nodup_nil, List.nodup_nil⟩ trivial).1

/-- C9, on a run that installs, opens the options page, adds "x.org" twice,
receives a whitelist request twice and removes an entry. -/
theorem lists_stay_duplicate_free_witness :
    StoreNodup (run emptySys
      [.install, .openOptions, .addSite "x.org".toList, .addSite " x.org ".toList,
       .message { type := "whitelist".toList, site := "y.org".toList },
       .message { type := "whitelist".toList, site := "y.org".toList },
       .removeSite 2]).store :=
  lists_stay_duplicate_free.2.2 _

/-- C10. The whitelist-request handler stores an empty site: from the empty
storage the message `{type: "whitelist", site: ""}` leaves the whitelist `[""]`,
which breaks the non-empty-pattern invariant; that pattern matches every url,
so a blocklisted url is then allowed.  The other writers keep every entry
non-empty: install merge, options-page add for every typed text, remove, and the
whitelist request for a non-empty site. -/
theorem empty_pattern_via_message :
    (onMessage { blocklist := none, whitelist := none }
        { type := "whitelist".toList, site := "".toList }).1.whitelist = some ["".toList] ∧
      ¬ StoreNonEmpty (onMessage { blocklist := none, whitelist := none }
        { type := "whitelist".toList, site := "".toList }).1 ∧
      (∀ (toLowerCase : JSString → JSString) (url : JSString),
        toLowerCase [] = [] → matchList toLowerCase url ["".toList] = true) ∧
      onBeforeNavigate asciiLower (fun _ => .threw)
          { blocklist := some ["roblox.com".toList], whitelist := some ["".toList] }
          "Roblox".toList
          { frameId := 0, tabId := 3, url := "https://roblox.com/play".toList } =
        [.tabsGet 3, .storageGet ["blocklist".toList, "whitelist".toList]] ∧
      (∀ list : List JSString, (∀ p ∈ list, p ≠ []) →
        (∀ p ∈ installMerge (some list), p ≠ []) ∧
        (∀ v, ∀ p ∈ optionsAddResult list v, p ≠ []) ∧
        (∀ i, ∀ p ∈ removeAt list i, p ≠ []) ∧
        (∀ s, s ≠ [] → ∀ p ∈ requestWhitelist (some list) s, p ≠ [])) := by
  refine ⟨by decide, ?_, ?_, by decide, ?_⟩
  · intro h
    exact h.2 [] (by decide) rfl
  · intro toLowerCase url h0
    simp [matchList, h0, includes_nil]
  · intro list hl
    refine ⟨?_, ?_, ?_, ?_⟩
    · intro p hp
      unfold installMerge at hp
      rw [mem_arrayFromSet, List.mem_append] at hp
      rcases hp with hp | hp
      · exact hl p hp
      · exact mustBlockDomains_nonEmpty p hp
    · intro v p hp
      unfold optionsAddResult at hp
      cases ho : optionsAdd (some list) v with
      | none =>
        rw [ho] at hp
        exact hl p hp
      | some l =>
        rw [ho] at hp
        obtain ⟨ht, he⟩ := trim_ne_nil_of_optionsAdd ho
        simp only [Option.getD_some] at hp he
        rw [he, mem_pushIfAbsent] at hp
        rcases hp with hp | hp
        · exact hl p hp
        · rw [hp]; exact ht
    · intro i p hp
      exact hl p ((removeAt_sublist list i).subset hp)
    · intro s hs p hp
      unfold requestWhitelist at hp
      rw [mem_pushIfAbsent] at hp
      rcases hp with hp | hp
      · exact hl p hp
      · rw [hp]; exact hs

end BradSiteBlocker
